import Mathlib

/-!
# Verification of the Lumina offline-caching service worker

A shallow embedding of `src/frontend/service-worker.js` (version 2.5.0): the
request classifier, the caching strategies, the install/activate lifecycle,
the durable key-value store backed by the `lumina-ai-data` cache, and the
offline mutation queue with its replay functions.

Platform primitives (the Cache API, `fetch`, `JSON.stringify`/`JSON.parse`)
are modelled explicitly: caches are association lists from URL strings to
response snapshots, a network is a function from requests to an optional
response (`none` is a thrown network error; an HTTP error status is a
*returned* response, since `fetch` only rejects on network failure), and JSON
documents are an inductive type with an executable serializer and parser
proved inverse.  JavaScript numbers are modelled as integers (float formatting
is out of scope for the queue payloads, which are opaque to the worker).
-/

namespace Lumina

/-! ## JSON documents

The durable store (`storeData` / `getStoredData`) writes `JSON.stringify` of a
value as a `Response` body and reads it back with `response.json()`.  We model
the document grammar with integer numbers; the serializer escapes the quote
and backslash characters, and the parser accepts exactly the shapes the
serializer emits (it is deliberately permissive about control characters,
which `JSON.stringify` would escape further; the repository never stores
them). -/

inductive Json where
  | null : Json
  | bool : Bool → Json
  | num : Int → Json
  | str : String → Json
  | arr : List Json → Json
  | obj : List (String × Json) → Json

/-- Decimal digit to its character. -/
def digitChar (d : Nat) : Char :=
  if d = 0 then '0' else if d = 1 then '1' else if d = 2 then '2'
  else if d = 3 then '3' else if d = 4 then '4' else if d = 5 then '5'
  else if d = 6 then '6' else if d = 7 then '7' else if d = 8 then '8' else '9'

/-- Character to decimal digit, `none` when it is not a digit. -/
def digitVal (c : Char) : Option Nat :=
  if c = '0' then some 0 else if c = '1' then some 1 else if c = '2' then some 2
  else if c = '3' then some 3 else if c = '4' then some 4 else if c = '5' then some 5
  else if c = '6' then some 6 else if c = '7' then some 7 else if c = '8' then some 8
  else if c = '9' then some 9 else none

/-- Little-endian decimal digits, structurally recursive on a fuel argument
so that it reduces definitionally (the fuel is an upper bound on the value). -/
def natToRevDigitsF : Nat → Nat → List Nat
  | _, 0 => []
  | 0, _ + 1 => []
  | fuel + 1, n + 1 => ((n + 1) % 10) :: natToRevDigitsF fuel ((n + 1) / 10)

/-- Little-endian decimal digits of a positive number (empty for zero). -/
def natToRevDigits (n : Nat) : List Nat := natToRevDigitsF n n

/-- Decimal rendering of a natural number. -/
def natSerChars (n : Nat) : List Char :=
  if n = 0 then ['0'] else (natToRevDigits n).reverse.map digitChar

/-- Decimal rendering of an integer (a leading minus for negatives). -/
def intSerChars : Int → List Char
  | Int.ofNat m => natSerChars m
  | Int.negSucc m => '-' :: natSerChars (m + 1)

/-- String-body escaping: quote and backslash get a backslash, all other
characters are emitted verbatim. -/
def quoteCharSer (c : Char) : List Char :=
  if c = '"' then ['\\', '"'] else if c = '\\' then ['\\', '\\'] else [c]

/-- A serialized string token: quote, escaped body, quote. -/
def strSerChars (s : String) : List Char :=
  '"' :: ((s.data.map quoteCharSer).flatten ++ ['"'])

mutual

/-- Serialization of a JSON document, mirroring `JSON.stringify`. -/
def serJson : Json → List Char
  | Json.null => ['n', 'u', 'l', 'l']
  | Json.bool true => ['t', 'r', 'u', 'e']
  | Json.bool false => ['f', 'a', 'l', 's', 'e']
  | Json.num n => intSerChars n
  | Json.str s => strSerChars s
  | Json.arr [] => ['[', ']']
  | Json.arr (v :: vs) => '[' :: (serJson v ++ serElems vs) ++ [']']
  | Json.obj [] => ['\x7b', '\x7d']
  | Json.obj (f :: fs) => '\x7b' :: (serField f ++ serFields fs) ++ ['\x7d']

/-- Later array elements, each preceded by a comma. -/
def serElems : List Json → List Char
  | [] => []
  | v :: vs => ',' :: serJson v ++ serElems vs

/-- One object member: serialized key, colon, serialized value. -/
def serField : String × Json → List Char
  | (k, v) => strSerChars k ++ ':' :: serJson v

/-- Later object members, each preceded by a comma. -/
def serFields : List (String × Json) → List Char
  | [] => []
  | f :: fs => ',' :: serField f ++ serFields fs

end

mutual

/-- Node count of a document: a fuel bound for the parser. -/
def jsize : Json → Nat
  | Json.null => 1
  | Json.bool _ => 1
  | Json.num _ => 1
  | Json.str _ => 1
  | Json.arr vs => 1 + jsizeL vs
  | Json.obj fs => 1 + jsizeF fs

/-- Node count of a list of array elements. -/
def jsizeL : List Json → Nat
  | [] => 0
  | v :: vs => 1 + jsize v + jsizeL vs

/-- Node count of a list of object members. -/
def jsizeF : List (String × Json) → Nat
  | [] => 0
  | (_, v) :: fs => 1 + jsize v + jsizeF fs

end

/-- Consume a maximal run of digits, folding them onto an accumulator. -/
def grabDigits : List Char → Nat → Nat × List Char
  | [], acc => (acc, [])
  | c :: rest, acc =>
    match digitVal c with
    | some d => grabDigits rest (acc * 10 + d)
    | none => (acc, c :: rest)

/-- Parse a natural number: at least one leading digit. -/
def parseNat : List Char → Option (Nat × List Char)
  | [] => none
  | c :: rest =>
    match digitVal c with
    | some d => some (grabDigits rest d)
    | none => none

/-- Parse a string body up to the closing quote, undoing `quoteCharSer`. -/
def parseStrBody : List Char → Option (List Char × List Char)
  | [] => none
  | c :: rest =>
    if c = '"' then some ([], rest)
    else if c = '\\' then
      match rest with
      | [] => none
      | e :: rest2 =>
        if e = '"' ∨ e = '\\' then
          match parseStrBody rest2 with
          | some (cs, r) => some (e :: cs, r)
          | none => none
        else none
    else
      match parseStrBody rest with
      | some (cs, r) => some (c :: cs, r)
      | none => none

/-- One step of value parsing, abstracted over the continuations used for
array elements and object members (so the recursion skeleton below stays
trivial for the equation generator). -/
def parseValHead (pe : List Char → Option (List Json × List Char))
    (pf : List Char → Option (List (String × Json) × List Char))
    (c : Char) (rest : List Char) : Option (Json × List Char) :=
  if c = 'n' then
    match rest with
    | 'u' :: 'l' :: 'l' :: r => some (Json.null, r)
    | _ => none
  else if c = 't' then
    match rest with
    | 'r' :: 'u' :: 'e' :: r => some (Json.bool true, r)
    | _ => none
  else if c = 'f' then
    match rest with
    | 'a' :: 'l' :: 's' :: 'e' :: r => some (Json.bool false, r)
    | _ => none
  else if c = '"' then
    match parseStrBody rest with
    | some (body, r) => some (Json.str (String.mk body), r)
    | none => none
  else if c = '[' then
    match rest with
    | ']' :: r => some (Json.arr [], r)
    | _ =>
      match pe rest with
      | some (vs, r) => some (Json.arr vs, r)
      | none => none
  else if c = '\x7b' then
    match rest with
    | '\x7d' :: r => some (Json.obj [], r)
    | _ =>
      match pf rest with
      | some (fs, r) => some (Json.obj fs, r)
      | none => none
  else if c = '-' then
    match parseNat rest with
    | some (n, r) => some (Json.num (-(Int.ofNat n)), r)
    | none => none
  else
    match parseNat (c :: rest) with
    | some (n, r) => some (Json.num (Int.ofNat n), r)
    | none => none

/-- One step of element-list parsing after the leading value. -/
def elemsStep (res : Option (Json × List Char))
    (pe : List Char → Option (List Json × List Char)) : Option (List Json × List Char) :=
  match res with
  | some (v, r) =>
    match r with
    | ',' :: r2 =>
      match pe r2 with
      | some (vs, r3) => some (v :: vs, r3)
      | none => none
    | ']' :: r2 => some ([v], r2)
    | _ => none
  | none => none

/-- One step of member-list parsing: a key string, a colon, a value, then a
comma or the closing brace. -/
def fieldsStep (cs : List Char) (pv : List Char → Option (Json × List Char))
    (pf : List Char → Option (List (String × Json) × List Char)) :
    Option (List (String × Json) × List Char) :=
  match cs with
  | '"' :: rest =>
    match parseStrBody rest with
    | some (keyChars, r) =>
      match r with
      | ':' :: r2 =>
        match pv r2 with
        | some (v, r3) =>
          match r3 with
          | ',' :: r4 =>
            match pf r4 with
            | some (fs, r5) => some ((String.mk keyChars, v) :: fs, r5)
            | none => none
          | '\x7d' :: r4 => some ([(String.mk keyChars, v)], r4)
          | _ => none
        | none => none
      | _ => none
    | none => none
  | _ => none

mutual

/-- Fuel-bounded parser for one JSON value. -/
def parseVal : Nat → List Char → Option (Json × List Char)
  | 0, _ => none
  | _ + 1, [] => none
  | fuel + 1, c :: rest => parseValHead (parseElems fuel) (parseFields fuel) c rest

/-- Parse the elements of a nonempty array, up to and including `]`. -/
def parseElems : Nat → List Char → Option (List Json × List Char)
  | 0, _ => none
  | fuel + 1, cs => elemsStep (parseVal fuel cs) (parseElems fuel)

/-- Parse the members of a nonempty object, up to and including the
closing brace. -/
def parseFields : Nat → List Char → Option (List (String × Json) × List Char)
  | 0, _ => none
  | fuel + 1, cs => fieldsStep cs (parseVal fuel) (parseFields fuel)

end

/-- The platform `JSON.stringify`. -/
def Json.stringify (v : Json) : String := String.mk (serJson v)

/-- The platform `JSON.parse`, requiring full consumption of the input. -/
def Json.parse (s : String) : Option Json :=
  match parseVal (s.data.length + 1) s.data with
  | some (v, []) => some v
  | _ => none

/-- True when the head of the remaining input is not a decimal digit, so a
number token just before it cannot absorb it. -/
def noDigitHead : List Char → Bool
  | [] => true
  | c :: _ => (digitVal c).isNone

/-! ## String utilities mirroring the JavaScript ones used by the worker -/

/-- List-level startsWith (structural, so it reduces definitionally). -/
def listStartsWith : List Char → List Char → Bool
  | _, [] => true
  | [], _ :: _ => false
  | a :: as, b :: bs => a = b && listStartsWith as bs

/-- `String.prototype.startsWith`. -/
def strStartsWith (s p : String) : Bool := listStartsWith s.data p.data

/-- `String.prototype.endsWith`. -/
def strEndsWith (s p : String) : Bool := listStartsWith s.data.reverse p.data.reverse

/-- Substring containment test. -/
def listHasSub : List Char → List Char → Bool
  | s, sub =>
    if listStartsWith s sub then true
    else
      match s with
      | [] => false
      | _ :: rest => listHasSub rest sub

/-- `String.prototype.includes`. -/
def strIncludes (s sub : String) : Bool := listHasSub s.data sub.data

/-! ## HTTP model

A response snapshot carries its status and body.  A network is a function from
a request to `none` (the call rejects: network error) or `some` response (the
call resolves, whatever the status — `fetch` never rejects on an HTTP error
status).  A cache is an association list from URL strings to snapshots; the
`caches` object is an association list from cache names to caches. -/

structure HttpResponse where
  status : Nat
  body : String
deriving DecidableEq

structure Url where
  protocol : String
  hostname : String
  pathname : String
deriving DecidableEq

/-- `URL.origin`. -/
def Url.origin (u : Url) : String := u.protocol ++ "//" ++ u.hostname

/-- The full URL string, used as the cache key (`request.url`). -/
def Url.href (u : Url) : String := u.protocol ++ "//" ++ u.hostname ++ u.pathname

structure Request where
  method : String
  url : Url
  destination : String
deriving DecidableEq

/-- A same-origin network: maps each request to a thrown error (`none`) or a
returned response. -/
def FetchNet : Type := Request → Option HttpResponse

abbrev Cache := List (String × HttpResponse)

abbrev CacheMap := List (String × Cache)

/-- Look up a URL in one cache. -/
def cacheLookup : Cache → String → Option HttpResponse
  | [], _ => none
  | (u, r) :: rest, key => if u = key then some r else cacheLookup rest key

/-- Remove a URL from one cache (`cache.delete`). -/
def cacheDelete (c : Cache) (key : String) : Cache :=
  c.filter (fun p => decide (p.1 ≠ key))

/-- Overwrite a URL in one cache (`cache.put` replaces any previous entry). -/
def cachePutEntry (c : Cache) (key : String) (r : HttpResponse) : Cache :=
  (key, r) :: cacheDelete c key

/-- The named cache's contents (empty when the cache does not exist yet). -/
def cachesFind : CacheMap → String → Cache
  | [], _ => []
  | (n, c) :: rest, name => if n = name then c else cachesFind rest name

/-- `caches.open(name)` followed by `cache.put(key, r)`: updates the named
cache, creating it at the end of the list when absent. -/
def cachesPut : CacheMap → String → String → HttpResponse → CacheMap
  | [], name, key, r => [(name, [(key, r)])]
  | (n, c) :: rest, name, key, r =>
    if n = name then (n, cachePutEntry c key r) :: rest
    else (n, c) :: cachesPut rest name key r

/-- `caches.open(name)` followed by `cache.delete(key)`. -/
def cachesDeleteEntry (m : CacheMap) (name key : String) : CacheMap :=
  m.map (fun p => if p.1 = name then (p.1, cacheDelete p.2 key) else p)

/-- `caches.match(request)`: the first hit across all caches. -/
def cachesMatch : CacheMap → String → Option HttpResponse
  | [], _ => none
  | (_, c) :: rest, key =>
    match cacheLookup c key with
    | some r => some r
    | none => cachesMatch rest key

/-- `caches.delete(name)`. -/
def cachesDeleteCache (m : CacheMap) (name : String) : CacheMap :=
  m.filter (fun p => decide (p.1 ≠ name))

/-- `caches.keys()`. -/
def cachesKeys (m : CacheMap) : List String := m.map (fun p => p.1)

/-! ## Constants from the top of `service-worker.js` -/

def APP_VERSION : String := "2.5.0"
def CACHE_NAME : String := "lumina-ai-trainer-v" ++ APP_VERSION
def STATIC_CACHE : String := "lumina-static-v" ++ APP_VERSION
def DYNAMIC_CACHE : String := "lumina-dynamic-v" ++ APP_VERSION
def RUNTIME_CACHE : String := "lumina-runtime-v" ++ APP_VERSION
def ASSETS_CACHE : String := "lumina-assets-v" ++ APP_VERSION

def CORE_FILES : List String :=
  ["/", "/index.html", "/exercises.html", "/dashboard.html", "/monitor.html",
   "/analytics.html", "/profile.html", "/settings.html", "/manifest.json"]

def EXERCISE_ASSETS : List String :=
  ["/icons/icon-192.png", "/icons/icon-512.png", "/icons/maskable-icon-192.png",
   "/icons/maskable-icon-512.png", "/screenshots/exercises-mobile.png",
   "/screenshots/trainer-mobile.png"]

def EXTERNAL_RESOURCES : List String :=
  ["https://fonts.googleapis.com/css2?family=Inter:wght@300;400;500;600;700;800;900&display=swap"]

def NETWORK_FIRST_URLS : List String := ["/api/", "/health-check", "/sync"]

/-! ## Request classifier helpers -/

/-- `isStaticAsset(pathname)`. -/
def isStaticAsset (pathname : String) : Bool :=
  strIncludes pathname "/icons/" || strIncludes pathname "/screenshots/" ||
  strEndsWith pathname ".css" || strEndsWith pathname ".js" ||
  strEndsWith pathname ".png" || strEndsWith pathname ".svg" ||
  strEndsWith pathname ".jpg" || strEndsWith pathname ".jpeg" ||
  strEndsWith pathname ".webp"

/-- `isFontRequest(url)`. -/
def isFontRequest (u : Url) : Bool :=
  u.hostname = "fonts.googleapis.com" || u.hostname = "fonts.gstatic.com"

/-- `shouldCacheExternal(url)`, on the full URL string. -/
def shouldCacheExternal (url : String) : Bool :=
  strIncludes url "fonts.googleapis.com" || strIncludes url "fonts.gstatic.com" ||
  (strIncludes url "api." && strIncludes url "static")

/-! ## Strategy executors

Each strategy takes the current cache map, a network, and a request, and
returns the settled response (`none` when the handler's promise rejects or
settles with no response), the eventual cache map once any deferred
`cache.put` has settled, and whether `fetch` was invoked at all. -/

structure StratResult where
  resp : Option HttpResponse
  store : CacheMap
  fetched : Bool
deriving DecidableEq

/-- The synthesized offline page, `createOfflineExercisePage()`: a `Response`
with default status 200 whose body is the inline HTML document (the markup
itself is interchangeable presentation; we keep an abbreviated body). -/
def offlineHTML : String := "<!DOCTYPE html><html>Lumina AI - Offline Eye Trainer</html>"

def createOfflineExercisePage : HttpResponse := { status := 200, body := offlineHTML }

/-- `new Response('', { status: 404 })`. -/
def emptyNotFound : HttpResponse := { status := 404, body := "" }

/-- `handleCacheFirst`. -/
def handleCacheFirst (m : CacheMap) (net : FetchNet) (r : Request) : StratResult :=
  match cachesMatch m r.url.href with
  | some cached => ⟨some cached, m, false⟩
  | none =>
    match net r with
    | some nr =>
      if nr.status = 200 then ⟨some nr, cachesPut m RUNTIME_CACHE r.url.href nr, true⟩
      else ⟨some nr, m, true⟩
    | none =>
      if r.destination = "document" then ⟨some createOfflineExercisePage, m, true⟩
      else ⟨none, m, true⟩

/-- `handleNetworkFirst`. -/
def handleNetworkFirst (m : CacheMap) (net : FetchNet) (r : Request) : StratResult :=
  match net r with
  | some nr =>
    if nr.status = 200 then ⟨some nr, cachesPut m RUNTIME_CACHE r.url.href nr, true⟩
    else ⟨some nr, m, true⟩
  | none =>
    match cachesMatch m r.url.href with
    | some cached => ⟨some cached, m, true⟩
    | none => ⟨none, m, true⟩

/-- `handleStaleWhileRevalidate`: returns the cached entry immediately when
present (the network result otherwise), while the deferred store write lands
only when the network call settles with status 200.  When the fetch rejects,
the catch clause resolves the promise with the (possibly absent) cached
value. -/
def handleStaleWhileRevalidate (m : CacheMap) (net : FetchNet) (r : Request) : StratResult :=
  let cached := cachesMatch m r.url.href
  match net r with
  | some nr =>
    ⟨match cached with
     | some c => some c
     | none => some nr,
     if nr.status = 200 then cachesPut m RUNTIME_CACHE r.url.href nr else m, true⟩
  | none => ⟨cached, m, true⟩

/-- `handleFontRequest`. -/
def handleFontRequest (m : CacheMap) (net : FetchNet) (r : Request) : StratResult :=
  match cachesMatch m r.url.href with
  | some cached => ⟨some cached, m, false⟩
  | none =>
    match net r with
    | some nr =>
      if nr.status = 200 then ⟨some nr, cachesPut m DYNAMIC_CACHE r.url.href nr, true⟩
      else ⟨some nr, m, true⟩
    | none => ⟨some emptyNotFound, m, true⟩

/-- `handleExternalRequest`. -/
def handleExternalRequest (m : CacheMap) (net : FetchNet) (r : Request) : StratResult :=
  match net r with
  | some nr =>
    if nr.status = 200 ∧ shouldCacheExternal r.url.href then
      ⟨some nr, cachesPut m DYNAMIC_CACHE r.url.href nr, true⟩
    else ⟨some nr, m, true⟩
  | none =>
    match cachesMatch m r.url.href with
    | some cached => ⟨some cached, m, true⟩
    | none => ⟨some emptyNotFound, m, true⟩

/-- `handleSameOriginRequest`: network-first for API prefixes, cache-first for
static assets, stale-while-revalidate for documents and HTML paths, cache-first
otherwise. -/
def handleSameOriginRequest (m : CacheMap) (net : FetchNet) (r : Request) : StratResult :=
  if NETWORK_FIRST_URLS.any (fun p => strStartsWith r.url.pathname p) then
    handleNetworkFirst m net r
  else if isStaticAsset r.url.pathname then
    handleCacheFirst m net r
  else if r.destination = "document" ∨ strEndsWith r.url.pathname ".html" then
    handleStaleWhileRevalidate m net r
  else
    handleCacheFirst m net r

/-- The fetch listener: `none` means the worker does not call `respondWith`
and control falls through to the default network path. -/
def handleFetch (locOrigin : String) (m : CacheMap) (net : FetchNet) (r : Request) :
    Option StratResult :=
  if r.method ≠ "GET" ∨ r.url.protocol = "chrome-extension:" then none
  else
    some
      (if r.url.origin = locOrigin then handleSameOriginRequest m net r
       else if isFontRequest r.url then handleFontRequest m net r
       else handleExternalRequest m net r)

/-- Repeated interception of the same request: threads the cache map through
`n` consecutive fetch events, recording each settled response and whether the
network was touched. -/
def fetchIterate (locOrigin : String) (net : FetchNet) (r : Request) :
    Nat → CacheMap → List (Option HttpResponse × Bool) × CacheMap
  | 0, m => ([], m)
  | n + 1, m =>
    match handleFetch locOrigin m net r with
    | some res =>
      let t := fetchIterate locOrigin net r n res.store
      ((res.resp, res.fetched) :: t.1, t.2)
    | none =>
      let t := fetchIterate locOrigin net r n m
      ((none, false) :: t.1, t.2)

/-! ## Durable key-value store (`lumina-ai-data`) -/

def dataCacheName : String := "lumina-ai-data"

/-- `getStoredData(key)`: match `/data/<key>` in the data cache and parse the
body; absent entries and parse failures both surface as `none` (`null`). -/
def getStoredData (m : CacheMap) (key : String) : Option Json :=
  match cacheLookup (cachesFind m dataCacheName) ("/data/" ++ key) with
  | some resp => Json.parse resp.body
  | none => none

/-- `storeData(key, value)`: put a JSON response at `/data/<key>`. -/
def storeData (m : CacheMap) (key : String) (v : Json) : CacheMap :=
  cachesPut m dataCacheName ("/data/" ++ key) ⟨200, Json.stringify v⟩

/-- `clearStoredData(key)`. -/
def clearStoredData (m : CacheMap) (key : String) : CacheMap :=
  cachesDeleteEntry m dataCacheName ("/data/" ++ key)

/-! ## Lifecycle: install -/

/-- `response.ok`: status in the 2xx range (what `cache.add`/`addAll` demand
before committing). -/
def respOk (r : HttpResponse) : Bool := 200 ≤ r.status && r.status ≤ 299

/-- A seed network: url → thrown (`none`) or returned response. -/
def SeedNet : Type := String → Option HttpResponse

/-- `cache.addAll(urls)`: atomic — `some` committed entries when every fetch
resolves ok, `none` (rejection, nothing committed) otherwise. -/
def addAllOutcome (net : SeedNet) : List String → Option (List (String × HttpResponse))
  | [] => some []
  | u :: rest =>
    match net u with
    | some r =>
      if respOk r then
        match addAllOutcome net rest with
        | some es => some ((u, r) :: es)
        | none => none
      else none
    | none => none

/-- `Promise.all(urls.map(u => cache.add(u)))`: each `add` commits its own
entry independently, so entries whose fetch resolved ok land even when a
sibling rejects. -/
def addEachCommitted (net : SeedNet) (urls : List String) : List (String × HttpResponse) :=
  urls.filterMap (fun u =>
    match net u with
    | some r => if respOk r then some (u, r) else none
    | none => none)

/-- Whether every individual `cache.add` in the list resolved. -/
def addEachAllOk (net : SeedNet) (urls : List String) : Bool :=
  urls.all (fun u =>
    match net u with
    | some r => respOk r
    | none => false)

/-- Commit a list of entries into a named cache. -/
def commitEntries (m : CacheMap) (name : String) (es : List (String × HttpResponse)) :
    CacheMap :=
  es.foldl (fun acc e => cachesPut acc name e.1 e.2) m

structure InstallResult where
  store : CacheMap
  skipWaitingCalled : Bool
  /-- Whether the promise handed to `event.waitUntil` rejected (the platform
  fails the install exactly when it does). -/
  rejected : Bool
deriving DecidableEq

/-- The install listener: three cache populations in parallel, then
`skipWaiting` on full success.  The trailing `.catch` swallows any rejection,
so the `waitUntil` promise always fulfills and the install is never failed,
while tiers whose own population succeeded keep their commits. -/
def installRun (net : SeedNet) (m : CacheMap) : InstallResult :=
  let m1 :=
    match addAllOutcome net CORE_FILES with
    | some es => commitEntries m STATIC_CACHE es
    | none => m
  let m2 :=
    match addAllOutcome net EXERCISE_ASSETS with
    | some es => commitEntries m1 ASSETS_CACHE es
    | none => m1
  let m3 := commitEntries m2 DYNAMIC_CACHE (addEachCommitted net EXTERNAL_RESOURCES)
  let allOk := (addAllOutcome net CORE_FILES).isSome &&
    (addAllOutcome net EXERCISE_ASSETS).isSome && addEachAllOk net EXTERNAL_RESOURCES
  ⟨m3, allOk, false⟩

/-! ## Lifecycle: activate -/

def validCacheNames : List String :=
  [CACHE_NAME, STATIC_CACHE, DYNAMIC_CACHE, RUNTIME_CACHE, ASSETS_CACHE]

/-- The activate cleanup filter: a cache name is deleted when it starts with
`lumina-` and is not one of the current generation's names. -/
def staleCacheName (name : String) : Bool :=
  strStartsWith name "lumina-" && !(validCacheNames.contains name)

/-- The cache names deleted during activation. -/
def activateDeletes (names : List String) : List String := names.filter staleCacheName

/-- The cache map after activation's cleanup step. -/
def activateCacheCleanup (m : CacheMap) : CacheMap :=
  m.filter (fun p => !staleCacheName p.1)

/-- A message posted to a client over the messaging bus. -/
structure ClientMsg where
  type : String
  version : Option String
  message : Option String
deriving DecidableEq

def swActivatedMsg : ClientMsg :=
  ⟨"SW_ACTIVATED", some APP_VERSION, some "Lumina AI Eye Trainer is ready offline!"⟩

/-- The activation broadcast: `SW_ACTIVATED` with the version label to every
open client. -/
def activateBroadcast (clients : List String) : List (String × ClientMsg) :=
  clients.map (fun c => (c, swActivatedMsg))

/-- Observable steps of the activate handler. -/
inductive ActEvent where
  | cleanupStart
  | claimStart
  | cleanupEnd
  | claimEnd
  | broadcastSent
deriving DecidableEq

/-- The activate handler's event order.  The synchronous body builds the
`Promise.all` array, invoking `caches.keys()` (cleanup begins) and then
`clients.claim()` (claiming begins) before anything can complete; the two
complete in scheduler-dependent order (the Boolean); the `.then` continuation
broadcasts only after both have completed. -/
def activateTrace (claimEndsFirst : Bool) : List ActEvent :=
  [ActEvent.cleanupStart, ActEvent.claimStart] ++
    (if claimEndsFirst then [ActEvent.claimEnd, ActEvent.cleanupEnd]
     else [ActEvent.cleanupEnd, ActEvent.claimEnd]) ++
    [ActEvent.broadcastSent]

/-- Index of an event in a trace (length when absent). -/
def evIdx (e : ActEvent) : List ActEvent → Nat
  | [] => 0
  | x :: rest => if x = e then 0 else evIdx e rest + 1

/-- `a` happens strictly before `b` in the trace. -/
@[reducible] def evBefore (t : List ActEvent) (a b : ActEvent) : Prop := evIdx a t < evIdx b t

/-! ## Offline mutation queue: background sync -/

/-- The remote API as seen by the replay loop: endpoint and JSON body to a
thrown error (`none`) or a returned response status. -/
def ApiNet : Type := String → Json → Option Nat

/-- The replay loop body: issue the calls in insertion order, stopping at the
first thrown network error; `true` when every call resolved (the response
status is never inspected). -/
def postSequence (net : ApiNet) (endpoint : String) : List Json → Bool
  | [] => true
  | d :: rest =>
    match net endpoint d with
    | none => false
    | some _ => postSequence net endpoint rest

structure SyncOutcome where
  store : CacheMap
  messages : List (String × ClientMsg)
deriving DecidableEq

def exerciseSyncedMsg : ClientMsg :=
  ⟨"EXERCISE_DATA_SYNCED", none, some "Exercise progress synchronized"⟩

/-- `syncExerciseData`: read `pending-exercise-data`; when it is a nonempty
array, POST each element to `/api/exercises/progress`; if none of the calls
threw, clear the record and broadcast to every client; a thrown call is caught
and leaves everything untouched.  (Values that are not arrays are outside the
queue's data model and are not modelled.) -/
def syncExerciseData (clients : List String) (net : ApiNet) (m : CacheMap) : SyncOutcome :=
  match getStoredData m "pending-exercise-data" with
  | some (Json.arr items) =>
    if items.isEmpty then ⟨m, []⟩
    else if postSequence net "/api/exercises/progress" items then
      ⟨clearStoredData m "pending-exercise-data",
       clients.map (fun c => (c, exerciseSyncedMsg))⟩
    else ⟨m, []⟩
  | _ => ⟨m, []⟩

/-- `syncEyeHealthData`: like the exercise replay for `pending-health-data`
against `/api/eye-health`, but with no client broadcast on success. -/
def syncEyeHealthData (net : ApiNet) (m : CacheMap) : SyncOutcome :=
  match getStoredData m "pending-health-data" with
  | some (Json.arr items) =>
    if items.isEmpty then ⟨m, []⟩
    else if postSequence net "/api/eye-health" items then
      ⟨clearStoredData m "pending-health-data", []⟩
    else ⟨m, []⟩
  | _ => ⟨m, []⟩

/-- JavaScript truthiness of a parsed JSON value. -/
def jsTruthy : Json → Bool
  | Json.null => false
  | Json.bool b => b
  | Json.num n => decide (n ≠ 0)
  | Json.str s => decide (s ≠ "")
  | Json.arr _ => true
  | Json.obj _ => true

/-- `syncUserSettings`: read `pending-settings`; when truthy, PUT it to
`/api/settings`; clear the record unless the call threw; never broadcasts. -/
def syncUserSettings (net : ApiNet) (m : CacheMap) : SyncOutcome :=
  match getStoredData m "pending-settings" with
  | some v =>
    if jsTruthy v then
      match net "/api/settings" v with
      | some _ => ⟨clearStoredData m "pending-settings", []⟩
      | none => ⟨m, []⟩
    else ⟨m, []⟩
  | none => ⟨m, []⟩

/-! # Theorems

## Round trip of the JSON serializer and parser -/

theorem digitVal_digitChar (d : Nat) (h : d < 10) : digitVal (digitChar d) = some d := by
  interval_cases d <;> rfl

theorem digitChar_cases (d : Nat) :
    digitChar d = '0' ∨ digitChar d = '1' ∨ digitChar d = '2' ∨ digitChar d = '3' ∨
    digitChar d = '4' ∨ digitChar d = '5' ∨ digitChar d = '6' ∨ digitChar d = '7' ∨
    digitChar d = '8' ∨ digitChar d = '9' := by
  unfold digitChar
  split_ifs <;> simp

theorem natToRevDigitsF_succ (k m : Nat) :
    natToRevDigitsF (k + 1) (m + 1) = ((m + 1) % 10) :: natToRevDigitsF k ((m + 1) / 10) := rfl

theorem natToRevDigitsF_stable : ∀ f1 f2 n, n ≤ f1 → n ≤ f2 →
    natToRevDigitsF f1 n = natToRevDigitsF f2 n := by
  intro f1
  induction f1 with
  | zero =>
    intro f2 n h1 _
    interval_cases n
    cases f2 <;> rfl
  | succ k ih =>
    intro f2 n h1 h2
    cases n with
    | zero => cases f2 <;> rfl
    | succ m =>
      cases f2 with
      | zero => omega
      | succ j =>
        have hd : (m + 1) / 10 < m + 1 := Nat.div_lt_self (by omega) (by omega)
        rw [natToRevDigitsF_succ, natToRevDigitsF_succ]
        congr 1
        exact ih j ((m + 1) / 10) (by omega) (by omega)

theorem natToRevDigits_lt10F : ∀ fuel n, n ≤ fuel → ∀ d ∈ natToRevDigitsF fuel n, d < 10 := by
  intro fuel
  induction fuel with
  | zero =>
    intro n h1 d hd
    interval_cases n
    simp [natToRevDigitsF] at hd
  | succ k ih =>
    intro n h1 d hd
    cases n with
    | zero => simp [natToRevDigitsF] at hd
    | succ m =>
      rw [natToRevDigitsF_succ] at hd
      rcases List.mem_cons.mp hd with h | h
      · omega
      · have hdiv : (m + 1) / 10 < m + 1 := Nat.div_lt_self (by omega) (by omega)
        exact ih ((m + 1) / 10) (by omega) d h

theorem natToRevDigits_lt10 (n : Nat) : ∀ d ∈ natToRevDigits n, d < 10 :=
  natToRevDigits_lt10F n n (le_refl n)

theorem foldl_revDigitsF : ∀ fuel n, n ≤ fuel →
    ((natToRevDigitsF fuel n).reverse).foldl (fun a d => a * 10 + d) 0 = n := by
  intro fuel
  induction fuel with
  | zero =>
    intro n h1
    interval_cases n
    rfl
  | succ k ih =>
    intro n h1
    cases n with
    | zero => rfl
    | succ m =>
      have hdiv : (m + 1) / 10 < m + 1 := Nat.div_lt_self (by omega) (by omega)
      rw [natToRevDigitsF_succ]
      rw [List.reverse_cons, List.foldl_append]
      rw [ih ((m + 1) / 10) (by omega)]
      simp only [List.foldl_cons, List.foldl_nil]
      omega

theorem foldl_revDigits (n : Nat) :
    ((natToRevDigits n).reverse).foldl (fun a d => a * 10 + d) 0 = n :=
  foldl_revDigitsF n n (le_refl n)

theorem noDigitHead_none {c : Char} {r : List Char} (h : noDigitHead (c :: r) = true) :
    digitVal c = none := by
  simpa [noDigitHead, Option.isNone_iff_eq_none] using h

theorem grabDigits_spec : ∀ (ds : List Nat) (acc : Nat) (rest : List Char),
    (∀ d ∈ ds, d < 10) → noDigitHead rest = true →
    grabDigits (ds.map digitChar ++ rest) acc =
      (ds.foldl (fun a d => a * 10 + d) acc, rest) := by
  intro ds
  induction ds with
  | nil =>
    intro acc rest _ hr
    cases rest with
    | nil => rfl
    | cons c r =>
      simp only [List.map_nil, List.nil_append, List.foldl_nil, grabDigits]
      rw [noDigitHead_none hr]
  | cons d ds ih =>
    intro acc rest hd hr
    simp only [List.map_cons, List.cons_append, List.foldl_cons, grabDigits]
    rw [digitVal_digitChar d (hd d (List.mem_cons_self d ds))]
    exact ih (acc * 10 + d) rest (fun x hx => hd x (List.mem_cons_of_mem d hx)) hr

theorem parseNat_digits : ∀ (d : Nat) (ds : List Nat) (rest : List Char),
    (∀ x ∈ d :: ds, x < 10) → noDigitHead rest = true →
    parseNat ((d :: ds).map digitChar ++ rest)
      = some ((d :: ds).foldl (fun a x => a * 10 + x) 0, rest) := by
  intro d ds rest hd hr
  simp only [List.map_cons, List.cons_append, List.foldl_cons, parseNat]
  rw [digitVal_digitChar d (hd d (List.mem_cons_self d ds))]
  dsimp only
  rw [grabDigits_spec ds d rest (fun x hx => hd x (List.mem_cons_of_mem d hx)) hr]
  simp

theorem natSerChars_zero : natSerChars 0 = [digitChar 0] := rfl

theorem natToRevDigits_ne_nil (m : Nat) : natToRevDigits (m + 1) ≠ [] := by
  unfold natToRevDigits
  rw [natToRevDigitsF_succ]
  simp

theorem parseNat_ser (n : Nat) (rest : List Char) (hr : noDigitHead rest = true) :
    parseNat (natSerChars n ++ rest) = some (n, rest) := by
  by_cases h : n = 0
  · subst h
    rw [natSerChars_zero]
    have := parseNat_digits 0 [] rest (by intro x hx; simp at hx; omega) hr
    simpa using this
  · unfold natSerChars
    rw [if_neg h]
    have hne : (natToRevDigits n).reverse ≠ [] := by
      cases n with
      | zero => exact absurd rfl h
      | succ m =>
        simp only [ne_eq, List.reverse_eq_nil_iff]
        exact natToRevDigits_ne_nil m
    obtain ⟨d, ds, hds⟩ := List.exists_cons_of_ne_nil hne
    have hmem : ∀ x ∈ d :: ds, x < 10 := by
      intro x hx
      apply natToRevDigits_lt10 n
      rw [← List.mem_reverse, hds]
      exact hx
    rw [hds]
    rw [parseNat_digits d ds rest hmem hr]
    have hfold := foldl_revDigits n
    rw [hds] at hfold
    simp only [List.foldl_cons] at hfold ⊢
    rw [hfold]

theorem parseStrBody_cons (c : Char) (rest : List Char) :
    parseStrBody (c :: rest) =
      if c = '"' then some ([], rest)
      else if c = '\\' then
        match rest with
        | [] => none
        | e :: rest2 =>
          if e = '"' ∨ e = '\\' then
            match parseStrBody rest2 with
            | some (cs, r) => some (e :: cs, r)
            | none => none
          else none
      else
        match parseStrBody rest with
        | some (cs, r) => some (c :: cs, r)
        | none => none := by
  rw [parseStrBody.eq_def]

theorem parseStrBody_plain (c : Char) (rest : List Char) (h1 : ¬c = '"') (h2 : ¬c = '\\') :
    parseStrBody (c :: rest) =
      match parseStrBody rest with
      | some (cs, r) => some (c :: cs, r)
      | none => none := by
  rw [parseStrBody_cons, if_neg h1, if_neg h2]

theorem parseStrBody_escape (e : Char) (rest : List Char) (he : e = '"' ∨ e = '\\') :
    parseStrBody ('\\' :: e :: rest) =
      match parseStrBody rest with
      | some (cs, r) => some (e :: cs, r)
      | none => none := by
  rw [parseStrBody_cons, if_neg (by decide), if_pos rfl]
  dsimp only
  rw [if_pos he]

theorem parseStrBody_ser : ∀ (cs rest : List Char),
    parseStrBody ((cs.map quoteCharSer).flatten ++ '"' :: rest) = some (cs, rest) := by
  intro cs
  induction cs with
  | nil =>
    intro rest
    simp only [List.map_nil, List.flatten_nil, List.nil_append]
    rw [parseStrBody_cons, if_pos rfl]
  | cons c cs ih =>
    intro rest
    by_cases h1 : c = '"'
    · subst h1
      have hq : quoteCharSer '"' = ['\\', '"'] := by rw [quoteCharSer, if_pos rfl]
      simp only [List.map_cons, List.flatten_cons, hq, List.cons_append, List.nil_append,
        List.append_assoc]
      rw [parseStrBody_escape '"' _ (Or.inl rfl), ih rest]
    · by_cases h2 : c = '\\'
      · subst h2
        have hq : quoteCharSer '\\' = ['\\', '\\'] := by
          rw [quoteCharSer, if_neg (by decide), if_pos rfl]
        simp only [List.map_cons, List.flatten_cons, hq, List.cons_append, List.nil_append,
          List.append_assoc]
        rw [parseStrBody_escape '\\' _ (Or.inr rfl), ih rest]
      · have hq : quoteCharSer c = [c] := by rw [quoteCharSer, if_neg h1, if_neg h2]
        simp only [List.map_cons, List.flatten_cons, hq, List.cons_append, List.nil_append]
        rw [parseStrBody_plain c _ h1 h2, ih rest]

theorem serJson_arr_cons (v : Json) (vs : List Json) :
    serJson (Json.arr (v :: vs)) = '[' :: (serJson v ++ serElems vs) ++ [']'] := by
  rw [serJson.eq_def]

theorem serJson_obj_cons (f : String × Json) (fs : List (String × Json)) :
    serJson (Json.obj (f :: fs)) = '\x7b' :: (serField f ++ serFields fs) ++ ['\x7d'] := by
  rw [serJson.eq_def]

theorem serElems_cons (v : Json) (vs : List Json) :
    serElems (v :: vs) = ',' :: serJson v ++ serElems vs := by
  rw [serElems.eq_def]

theorem serField_eq (k : String) (v : Json) :
    serField (k, v) = strSerChars k ++ ':' :: serJson v := by
  rw [serField.eq_def]

theorem serFields_cons (f : String × Json) (fs : List (String × Json)) :
    serFields (f :: fs) = ',' :: serField f ++ serFields fs := by
  rw [serFields.eq_def]

theorem jsize_arr (vs : List Json) : jsize (Json.arr vs) = 1 + jsizeL vs := by
  rw [jsize.eq_def]

theorem jsize_obj (fs : List (String × Json)) : jsize (Json.obj fs) = 1 + jsizeF fs := by
  rw [jsize.eq_def]

theorem jsizeL_cons (v : Json) (vs : List Json) :
    jsizeL (v :: vs) = 1 + jsize v + jsizeL vs := by
  rw [jsizeL.eq_def]

theorem jsizeF_cons (f : String × Json) (fs : List (String × Json)) :
    jsizeF (f :: fs) = 1 + jsize f.2 + jsizeF fs := by
  rw [jsizeF.eq_def]

theorem jsize_pos (v : Json) : 1 ≤ jsize v := by
  cases v <;> rw [jsize.eq_def] <;> dsimp only <;> omega

theorem natSerChars_length_pos (n : Nat) : 1 ≤ (natSerChars n).length := by
  unfold natSerChars
  split_ifs with h
  · simp
  · simp only [List.length_map, List.length_reverse]
    cases n with
    | zero => exact absurd rfl h
    | succ m =>
      cases hh : natToRevDigits (m + 1) with
      | nil => exact absurd hh (natToRevDigits_ne_nil m)
      | cons a l => simp [hh]

mutual

theorem jsize_le_serLen : ∀ v : Json, jsize v ≤ (serJson v).length
  | Json.null => by simp [jsize.eq_def, serJson.eq_def]
  | Json.bool b => by cases b <;> simp [jsize.eq_def, serJson.eq_def]
  | Json.num n => by
    rw [jsize.eq_def, serJson.eq_def]
    dsimp only
    cases n with
    | ofNat m => exact natSerChars_length_pos m
    | negSucc m => simp [intSerChars]
  | Json.str s => by
    rw [jsize.eq_def, serJson.eq_def]
    dsimp only
    simp [strSerChars]
  | Json.arr [] => by simp [jsize.eq_def, serJson.eq_def, jsizeL.eq_def]
  | Json.arr (v :: vs) => by
    have h1 := jsize_le_serLen v
    have h2 := jsizeL_le_serElems vs
    rw [jsize_arr, jsizeL_cons, serJson_arr_cons]
    simp only [List.length_append, List.length_cons]
    omega
  | Json.obj [] => by simp [jsize.eq_def, serJson.eq_def, jsizeF.eq_def]
  | Json.obj ((k, w) :: fs) => by
    have h1 := jsize_le_serLen w
    have h2 := jsizeF_le_serFields fs
    rw [jsize_obj, jsizeF_cons, serJson_obj_cons, serField_eq]
    simp only [List.length_append, List.length_cons]
    omega

theorem jsizeL_le_serElems : ∀ vs : List Json, jsizeL vs ≤ (serElems vs).length
  | [] => by simp [jsizeL.eq_def, serElems.eq_def]
  | v :: vs => by
    have h1 := jsize_le_serLen v
    have h2 := jsizeL_le_serElems vs
    rw [jsizeL_cons, serElems_cons]
    simp only [List.length_append, List.length_cons]
    omega

theorem jsizeF_le_serFields : ∀ fs : List (String × Json), jsizeF fs ≤ (serFields fs).length
  | [] => by simp [jsizeF.eq_def, serFields.eq_def]
  | (k, w) :: fs => by
    have h1 := jsize_le_serLen w
    have h2 := jsizeF_le_serFields fs
    rw [jsizeF_cons, serFields_cons, serField_eq]
    simp only [List.length_append, List.length_cons]
    omega

end

theorem parseVal_succ (f : Nat) (c : Char) (rest : List Char) :
    parseVal (f + 1) (c :: rest) = parseValHead (parseElems f) (parseFields f) c rest := by
  rw [parseVal.eq_def]

theorem parseElems_succ (f : Nat) (cs : List Char) :
    parseElems (f + 1) cs = elemsStep (parseVal f cs) (parseElems f) := by
  rw [parseElems.eq_def]

theorem parseFields_succ (f : Nat) (cs : List Char) :
    parseFields (f + 1) cs = fieldsStep cs (parseVal f) (parseFields f) := by
  rw [parseFields.eq_def]

theorem parseVal_null (f : Nat) (r : List Char) :
    parseVal (f + 1) ('n' :: 'u' :: 'l' :: 'l' :: r) = some (Json.null, r) := by
  rw [parseVal_succ]; rfl

theorem parseVal_true (f : Nat) (r : List Char) :
    parseVal (f + 1) ('t' :: 'r' :: 'u' :: 'e' :: r) = some (Json.bool true, r) := by
  rw [parseVal_succ]; rfl

theorem parseVal_false (f : Nat) (r : List Char) :
    parseVal (f + 1) ('f' :: 'a' :: 'l' :: 's' :: 'e' :: r) = some (Json.bool false, r) := by
  rw [parseVal_succ]; rfl

theorem parseVal_quote (f : Nat) (rest : List Char) :
    parseVal (f + 1) ('"' :: rest) =
      match parseStrBody rest with
      | some (body, r) => some (Json.str (String.mk body), r)
      | none => none := by
  rw [parseVal_succ]
  rw [parseValHead.eq_def, if_neg (by decide), if_neg (by decide), if_neg (by decide), if_pos rfl]

theorem parseVal_lbracket (f : Nat) (rest : List Char) :
    parseVal (f + 1) ('[' :: rest) =
      match rest with
      | ']' :: r => some (Json.arr [], r)
      | _ =>
        match parseElems f rest with
        | some (vs, r) => some (Json.arr vs, r)
        | none => none := by
  rw [parseVal_succ]
  rw [parseValHead.eq_def, if_neg (by decide), if_neg (by decide), if_neg (by decide),
    if_neg (by decide), if_pos rfl]

theorem parseVal_lbrace (f : Nat) (rest : List Char) :
    parseVal (f + 1) ('\x7b' :: rest) =
      match rest with
      | '\x7d' :: r => some (Json.obj [], r)
      | _ =>
        match parseFields f rest with
        | some (fs, r) => some (Json.obj fs, r)
        | none => none := by
  rw [parseVal_succ]
  rw [parseValHead.eq_def, if_neg (by decide), if_neg (by decide), if_neg (by decide),
    if_neg (by decide), if_neg (by decide), if_pos rfl]

theorem parseVal_minus (f : Nat) (rest : List Char) :
    parseVal (f + 1) ('-' :: rest) =
      match parseNat rest with
      | some (n, r) => some (Json.num (-(Int.ofNat n)), r)
      | none => none := by
  rw [parseVal_succ]
  rw [parseValHead.eq_def, if_neg (by decide), if_neg (by decide), if_neg (by decide),
    if_neg (by decide), if_neg (by decide), if_neg (by decide), if_pos rfl]

theorem digitVal_cases (c : Char) (d : Nat) (h : digitVal c = some d) :
    c = '0' ∨ c = '1' ∨ c = '2' ∨ c = '3' ∨ c = '4' ∨ c = '5' ∨ c = '6' ∨ c = '7' ∨
    c = '8' ∨ c = '9' := by
  unfold digitVal at h
  split_ifs at h with h0 h1 h2 h3 h4 h5 h6 h7 h8 h9
  · exact Or.inl h0
  · exact Or.inr (Or.inl h1)
  · exact Or.inr (Or.inr (Or.inl h2))
  · exact Or.inr (Or.inr (Or.inr (Or.inl h3)))
  · exact Or.inr (Or.inr (Or.inr (Or.inr (Or.inl h4))))
  · exact Or.inr (Or.inr (Or.inr (Or.inr (Or.inr (Or.inl h5)))))
  · exact Or.inr (Or.inr (Or.inr (Or.inr (Or.inr (Or.inr (Or.inl h6))))))
  · exact Or.inr (Or.inr (Or.inr (Or.inr (Or.inr (Or.inr (Or.inr (Or.inl h7)))))))
  · exact Or.inr (Or.inr (Or.inr (Or.inr (Or.inr (Or.inr (Or.inr (Or.inr (Or.inl h8))))))))
  · exact Or.inr (Or.inr (Or.inr (Or.inr (Or.inr (Or.inr (Or.inr (Or.inr (Or.inr h9))))))))

theorem parseVal_digitHead (f : Nat) (c : Char) (d : Nat) (rest : List Char)
    (h : digitVal c = some d) :
    parseVal (f + 1) (c :: rest) =
      match parseNat (c :: rest) with
      | some (n, r) => some (Json.num (Int.ofNat n), r)
      | none => none := by
  rw [parseVal_succ]
  rcases digitVal_cases c d h with hc | hc | hc | hc | hc | hc | hc | hc | hc | hc <;>
    subst hc <;>
    rw [parseValHead.eq_def, if_neg (by decide), if_neg (by decide), if_neg (by decide),
      if_neg (by decide), if_neg (by decide), if_neg (by decide), if_neg (by decide)]

theorem digitChar_ne_rbracket (d : Nat) : digitChar d ≠ ']' := by
  unfold digitChar
  split_ifs <;> decide

theorem natSerChars_head (n : Nat) :
    ∃ d cs, natSerChars n = digitChar d :: cs ∧ d < 10 := by
  by_cases h : n = 0
  · subst h
    exact ⟨0, [], rfl, by omega⟩
  · unfold natSerChars
    rw [if_neg h]
    cases n with
    | zero => exact absurd rfl h
    | succ m =>
      cases hh : (natToRevDigits (m + 1)).reverse with
      | nil =>
        rw [List.reverse_eq_nil_iff] at hh
        exact absurd hh (natToRevDigits_ne_nil m)
      | cons d l =>
        refine ⟨d, l.map digitChar, by simp, ?_⟩
        apply natToRevDigits_lt10 (m + 1)
        rw [← List.mem_reverse, hh]
        exact List.mem_cons_self d l

theorem serJson_head (v : Json) : ∃ c cs, serJson v = c :: cs ∧ c ≠ ']' := by
  cases v with
  | null => exact ⟨'n', _, rfl, by decide⟩
  | bool b =>
    cases b
    · exact ⟨'f', _, rfl, by decide⟩
    · exact ⟨'t', _, rfl, by decide⟩
  | num n =>
    cases n with
    | ofNat m =>
      obtain ⟨d, cs, hcs, _⟩ := natSerChars_head m
      exact ⟨digitChar d, cs, hcs, digitChar_ne_rbracket d⟩
    | negSucc m => exact ⟨'-', _, rfl, by decide⟩
  | str s => exact ⟨'"', _, rfl, by decide⟩
  | arr vs =>
    cases vs with
    | nil => exact ⟨'[', _, rfl, by decide⟩
    | cons w ws => exact ⟨'[', _, serJson_arr_cons w ws, by decide⟩
  | obj fs =>
    cases fs with
    | nil => exact ⟨'\x7b', _, rfl, by decide⟩
    | cons g gs => exact ⟨'\x7b', _, serJson_obj_cons g gs, by decide⟩

theorem noDigitHead_serElems (vs : List Json) (rest : List Char) :
    noDigitHead (serElems vs ++ ']' :: rest) = true := by
  cases vs with
  | nil => rfl
  | cons v vs => rw [serElems_cons]; rfl

theorem noDigitHead_serFields (fs : List (String × Json)) (rest : List Char) :
    noDigitHead (serFields fs ++ '\x7d' :: rest) = true := by
  cases fs with
  | nil => rfl
  | cons g gs => rw [serFields_cons]; rfl

theorem elemsStep_comma (v : Json) (X : List Char)
    (pe : List Char → Option (List Json × List Char)) :
    elemsStep (some (v, ',' :: X)) pe =
      match pe X with
      | some (vs, r3) => some (v :: vs, r3)
      | none => none := rfl

theorem elemsStep_rbracket (v : Json) (X : List Char)
    (pe : List Char → Option (List Json × List Char)) :
    elemsStep (some (v, ']' :: X)) pe = some ([v], X) := rfl

theorem fieldsStep_quote (Y : List Char) (pv : List Char → Option (Json × List Char))
    (pf : List Char → Option (List (String × Json) × List Char)) :
    fieldsStep ('"' :: Y) pv pf =
      match parseStrBody Y with
      | some (keyChars, r) =>
        match r with
        | ':' :: r2 =>
          match pv r2 with
          | some (v, r3) =>
            match r3 with
            | ',' :: r4 =>
              match pf r4 with
              | some (fs, r5) => some ((String.mk keyChars, v) :: fs, r5)
              | none => none
            | '\x7d' :: r4 => some ([(String.mk keyChars, v)], r4)
            | _ => none
          | none => none
        | _ => none
      | none => none := rfl

theorem fieldsStep_spec (kChars X : List Char) (pv : List Char → Option (Json × List Char))
    (pf : List Char → Option (List (String × Json) × List Char)) :
    fieldsStep ('"' :: ((kChars.map quoteCharSer).flatten ++ '"' :: ':' :: X)) pv pf =
      match pv X with
      | some (v, r3) =>
        match r3 with
        | ',' :: r4 =>
          match pf r4 with
          | some (fs, r5) => some ((String.mk kChars, v) :: fs, r5)
          | none => none
        | '\x7d' :: r4 => some ([(String.mk kChars, v)], r4)
        | _ => none
      | none => none := by
  rw [fieldsStep_quote]
  have h := parseStrBody_ser kChars (':' :: X)
  rw [show (kChars.map quoteCharSer).flatten ++ '"' :: ':' :: X
      = (kChars.map quoteCharSer).flatten ++ '"' :: (':' :: X) from rfl, h]
  rfl

theorem parse_ser_all : ∀ fuel : Nat,
    (∀ (v : Json) (rest : List Char), jsize v ≤ fuel → noDigitHead rest = true →
      parseVal fuel (serJson v ++ rest) = some (v, rest)) ∧
    (∀ (v : Json) (vs : List Json) (rest : List Char), 1 + jsize v + jsizeL vs ≤ fuel →
      parseElems fuel (serJson v ++ (serElems vs ++ ']' :: rest)) = some (v :: vs, rest)) ∧
    (∀ (k : String) (w : Json) (fs : List (String × Json)) (rest : List Char),
      1 + jsize w + jsizeF fs ≤ fuel →
      parseFields fuel
          (strSerChars k ++ ':' :: (serJson w ++ (serFields fs ++ '\x7d' :: rest)))
        = some ((k, w) :: fs, rest)) := by
  intro fuel
  induction fuel with
  | zero =>
    refine ⟨?_, ?_, ?_⟩
    · intro v rest h _
      have := jsize_pos v
      omega
    · intro v vs rest h
      have := jsize_pos v
      omega
    · intro k w fs rest h
      have := jsize_pos w
      omega
  | succ f ih =>
    obtain ⟨ih1, ih2, ih3⟩ := ih
    refine ⟨?_, ?_, ?_⟩
    · intro v rest hs hr
      cases v with
      | null => exact parseVal_null f rest
      | bool b =>
        cases b
        · exact parseVal_false f rest
        · exact parseVal_true f rest
      | num n =>
        cases n with
        | ofNat m =>
          obtain ⟨d, cs, hcs, hd⟩ := natSerChars_head m
          have hser : serJson (Json.num (Int.ofNat m)) = natSerChars m := rfl
          rw [hser, hcs, List.cons_append,
            parseVal_digitHead f (digitChar d) d _ (digitVal_digitChar d hd),
            ← List.cons_append, ← hcs, parseNat_ser m rest hr]
        | negSucc m =>
          have hser : serJson (Json.num (Int.negSucc m)) = '-' :: natSerChars (m + 1) := rfl
          rw [hser, List.cons_append, parseVal_minus, parseNat_ser (m + 1) rest hr]
          rfl
      | str s =>
        have hser : serJson (Json.str s) =
            '"' :: ((s.data.map quoteCharSer).flatten ++ ['"']) := rfl
        rw [hser, List.cons_append, parseVal_quote, List.append_assoc,
          List.singleton_append, parseStrBody_ser s.data rest]
      | arr vs =>
        cases vs with
        | nil =>
          have hser : serJson (Json.arr []) ++ rest = '[' :: ']' :: rest := rfl
          rw [hser, parseVal_lbracket]
          rfl
        | cons w ws =>
          rw [serJson_arr_cons]
          simp only [List.cons_append, List.append_assoc, List.singleton_append, List.nil_append]
          rw [parseVal_lbracket]
          have harith : 1 + jsize w + jsizeL ws ≤ f := by
            rw [jsize_arr, jsizeL_cons] at hs
            omega
          split
          · rename_i r heq
            obtain ⟨c, cs, hc, hne⟩ := serJson_head w
            rw [hc, List.cons_append] at heq
            injection heq with h1 _
            exact absurd h1 hne
          · rw [ih2 w ws rest harith]
      | obj fs =>
        cases fs with
        | nil =>
          have hser : serJson (Json.obj []) ++ rest = '\x7b' :: '\x7d' :: rest := rfl
          rw [hser, parseVal_lbrace]
          rfl
        | cons g gs =>
          obtain ⟨k, w⟩ := g
          rw [serJson_obj_cons, serField_eq]
          simp only [List.cons_append, List.append_assoc, List.singleton_append, List.nil_append]
          rw [parseVal_lbrace]
          have harith : 1 + jsize w + jsizeF gs ≤ f := by
            rw [jsize_obj, jsizeF_cons] at hs
            dsimp only at hs
            omega
          split
          · rename_i r heq
            have hq : strSerChars k ++ (':' :: (serJson w ++ (serFields gs ++ '\x7d' :: rest)))
                = '"' :: ((k.data.map quoteCharSer).flatten ++
                    ('"' :: (':' :: (serJson w ++ (serFields gs ++ '\x7d' :: rest))))) := by
              simp [strSerChars, List.cons_append, List.append_assoc, List.singleton_append]
            rw [hq] at heq
            injection heq with h1 _
            exact absurd h1 (by decide)
          · rw [ih3 k w gs rest harith]
    · intro v vs rest h
      rw [parseElems_succ]
      rw [ih1 v (serElems vs ++ ']' :: rest) (by
          have := jsize_pos v
          omega) (noDigitHead_serElems vs rest)]
      cases vs with
      | nil =>
        have : serElems ([] : List Json) ++ ']' :: rest = ']' :: rest := rfl
        rw [this, elemsStep_rbracket]
      | cons w ws =>
        rw [serElems_cons]
        simp only [List.cons_append, List.append_assoc, List.singleton_append, List.nil_append]
        rw [elemsStep_comma]
        rw [ih2 w ws rest (by rw [jsizeL_cons] at h; omega)]
    · intro k w fs rest h
      rw [parseFields_succ]
      have hq : strSerChars k ++ (':' :: (serJson w ++ (serFields fs ++ '\x7d' :: rest)))
          = '"' :: ((k.data.map quoteCharSer).flatten ++
              ('"' :: (':' :: (serJson w ++ (serFields fs ++ '\x7d' :: rest))))) := by
        simp [strSerChars, List.cons_append, List.append_assoc, List.singleton_append]
      rw [hq, fieldsStep_spec k.data]
      rw [ih1 w (serFields fs ++ '\x7d' :: rest) (by omega) (noDigitHead_serFields fs rest)]
      cases fs with
      | nil =>
        have hnil : serFields ([] : List (String × Json)) ++ '\x7d' :: rest
            = '\x7d' :: rest := rfl
        rw [hnil]
        rfl
      | cons g gs =>
        obtain ⟨k2, w2⟩ := g
        rw [serFields_cons, serField_eq]
        simp only [List.cons_append, List.append_assoc, List.singleton_append, List.nil_append]
        show (match parseFields f
                (strSerChars k2 ++ ':' :: (serJson w2 ++ (serFields gs ++ '\x7d' :: rest))) with
              | some (fs, r5) => some ((String.mk k.data, w) :: fs, r5)
              | none => none) = some ((k, w) :: (k2, w2) :: gs, rest)
        rw [ih3 k2 w2 gs rest (by rw [jsizeF_cons] at h; dsimp only at h; omega)]

theorem jsize_le_stringify (v : Json) : jsize v ≤ (serJson v).length + 1 :=
  le_trans (jsize_le_serLen v) (Nat.le_succ _)

/-- The platform round trip: parsing back a stringified document returns the
document itself. -/
theorem parse_stringify (v : Json) : Json.parse (Json.stringify v) = some v := by
  unfold Json.parse Json.stringify
  have h := (parse_ser_all ((serJson v).length + 1)).1 v [] (jsize_le_stringify v) rfl
  rw [List.append_nil] at h
  have hd : (String.mk (serJson v)).data = serJson v := rfl
  rw [hd, h]

/-! ## The durable key-value store -/

theorem cacheLookup_putEntry_self (c : Cache) (key : String) (r : HttpResponse) :
    cacheLookup (cachePutEntry c key r) key = some r := by
  simp [cachePutEntry, cacheLookup]

theorem cacheLookup_delete_self (c : Cache) (key : String) :
    cacheLookup (cacheDelete c key) key = none := by
  induction c with
  | nil => rfl
  | cons p rest ih =>
    obtain ⟨u, r⟩ := p
    simp only [cacheDelete, List.filter_cons] at ih ⊢
    by_cases h : u = key
    · subst h
      rw [show (decide ((u, r).1 ≠ u)) = false from by simp]
      exact ih
    · rw [show (decide ((u, r).1 ≠ key)) = true from by simp [h]]
      simp only [cacheLookup]
      rw [if_neg h]
      exact ih

theorem cachesFind_put_self (m : CacheMap) (name key : String) (r : HttpResponse) :
    cachesFind (cachesPut m name key r) name = cachePutEntry (cachesFind m name) key r := by
  induction m with
  | nil => simp [cachesPut, cachesFind, cachePutEntry, cacheDelete]
  | cons p rest ih =>
    obtain ⟨n, c⟩ := p
    simp only [cachesPut]
    by_cases h : n = name
    · subst h
      rw [if_pos rfl]
      simp only [cachesFind]
      rw [if_true, if_true]
    · rw [if_neg h]
      simp only [cachesFind]
      rw [if_neg h, if_neg h]
      exact ih

theorem cachesFind_put_other (m : CacheMap) (name key n2 : String) (r : HttpResponse)
    (h : n2 ≠ name) :
    cachesFind (cachesPut m name key r) n2 = cachesFind m n2 := by
  induction m with
  | nil =>
    simp only [cachesPut, cachesFind]
    rw [if_neg (by intro hh; exact h hh.symm)]
  | cons p rest ih =>
    obtain ⟨n, c⟩ := p
    simp only [cachesPut]
    by_cases hn : n = name
    · subst hn
      rw [if_pos rfl]
      simp only [cachesFind]
      rw [if_neg (by intro hh; exact h hh.symm), if_neg (by intro hh; exact h hh.symm)]
    · rw [if_neg hn]
      simp only [cachesFind]
      by_cases hn2 : n = n2
      · rw [if_pos hn2, if_pos hn2]
      · rw [if_neg hn2, if_neg hn2]
        exact ih

theorem cachesFind_deleteEntry_self (m : CacheMap) (name key : String) :
    cachesFind (cachesDeleteEntry m name key) name = cacheDelete (cachesFind m name) key := by
  induction m with
  | nil => rfl
  | cons p rest ih =>
    obtain ⟨n, c⟩ := p
    simp only [cachesDeleteEntry, List.map_cons] at ih ⊢
    by_cases h : n = name
    · subst h
      rw [show (if ((n, c) : String × Cache).1 = n then ((n, c).1, cacheDelete (n, c).2 key)
          else (n, c)) = (n, cacheDelete c key) from by rw [if_pos rfl]]
      simp only [cachesFind]
      rw [if_true, if_true]
    · rw [show (if ((n, c) : String × Cache).1 = name then ((n, c).1, cacheDelete (n, c).2 key)
          else (n, c)) = (n, c) from by rw [if_neg h]]
      simp only [cachesFind]
      rw [if_neg h, if_neg h]
      exact ih

theorem getStored_store (m : CacheMap) (k : String) (v : Json) :
    getStoredData (storeData m k v) k = some v := by
  unfold getStoredData storeData
  rw [cachesFind_put_self, cacheLookup_putEntry_self]
  exact parse_stringify v

theorem getStored_clear (m : CacheMap) (k : String) :
    getStoredData (clearStoredData m k) k = none := by
  unfold getStoredData clearStoredData
  rw [cachesFind_deleteEntry_self, cacheLookup_delete_self]

theorem getStored_absent (m : CacheMap) (k : String)
    (h : cacheLookup (cachesFind m dataCacheName) ("/data/" ++ k) = none) :
    getStoredData m k = none := by
  unfold getStoredData
  rw [h]

/-! ## Helper characterizations of the replay and install functions -/

theorem isEmpty_false_of_ne_nil {α : Type} {l : List α} (h : l ≠ []) :
    l.isEmpty = false := by
  cases l with
  | nil => exact absurd rfl h
  | cons a l => rfl

theorem syncExerciseData_eq (clients : List String) (net : ApiNet) (m : CacheMap)
    (items : List Json)
    (hq : getStoredData m "pending-exercise-data" = some (Json.arr items))
    (hne : items ≠ []) :
    syncExerciseData clients net m =
      if postSequence net "/api/exercises/progress" items then
        ⟨clearStoredData m "pending-exercise-data",
         clients.map (fun c => (c, exerciseSyncedMsg))⟩
      else ⟨m, []⟩ := by
  unfold syncExerciseData
  rw [hq]
  dsimp only
  rw [isEmpty_false_of_ne_nil hne]
  rfl

theorem syncEyeHealthData_eq (net : ApiNet) (m : CacheMap) (items : List Json)
    (hq : getStoredData m "pending-health-data" = some (Json.arr items))
    (hne : items ≠ []) :
    syncEyeHealthData net m =
      if postSequence net "/api/eye-health" items then
        ⟨clearStoredData m "pending-health-data", []⟩
      else ⟨m, []⟩ := by
  unfold syncEyeHealthData
  rw [hq]
  dsimp only
  rw [isEmpty_false_of_ne_nil hne]
  rfl

theorem cachesFind_commit_other (es : List (String × HttpResponse)) (m : CacheMap)
    (name n2 : String) (h : n2 ≠ name) :
    cachesFind (commitEntries m name es) n2 = cachesFind m n2 := by
  induction es generalizing m with
  | nil => rfl
  | cons e es ih =>
    show cachesFind (commitEntries (cachesPut m name e.1 e.2) name es) n2 = cachesFind m n2
    rw [ih (cachesPut m name e.1 e.2), cachesFind_put_other m name e.1 n2 e.2 h]

theorem installRun_skipWaiting (net : SeedNet) (m : CacheMap) :
    (installRun net m).skipWaitingCalled =
      ((addAllOutcome net CORE_FILES).isSome &&
        ((addAllOutcome net EXERCISE_ASSETS).isSome && addEachAllOk net EXTERNAL_RESOURCES)) := by
  unfold installRun
  dsimp only
  rw [Bool.and_assoc]

theorem installRun_rejected (net : SeedNet) (m : CacheMap) :
    (installRun net m).rejected = false := rfl

/-! ## Claim theorems -/

/-- Claim C10: writing a JSON value under a key with `storeData` and reading
it back with `getStoredData` returns an equal value (the JSON round trip
through the durable store); reading a key last passed to `clearStoredData`,
or one with no entry in the data cache, returns null. -/
theorem store_roundtrip (m : CacheMap) (k : String) (v : Json) :
    getStoredData (storeData m k v) k = some v ∧
    getStoredData (clearStoredData m k) k = none ∧
    (cacheLookup (cachesFind m dataCacheName) ("/data/" ++ k) = none →
      getStoredData m k = none) :=
  ⟨getStored_store m k v, getStored_clear m k, getStored_absent m k⟩

/-- Witness for C10 at a concrete store, key and value. -/
theorem store_roundtrip_witness :
    getStoredData (storeData [] "pending-settings" (Json.arr [Json.num 1])) "pending-settings"
        = some (Json.arr [Json.num 1]) ∧
    getStoredData (clearStoredData [] "pending-settings") "pending-settings" = none ∧
    getStoredData ([] : CacheMap) "pending-settings" = none := by
  have h := store_roundtrip [] "pending-settings" (Json.arr [Json.num 1])
  exact ⟨h.1, h.2.1, h.2.2 rfl⟩

/-- Claim C3 (code bug, evaluated at the failing input): a pending mutation
stored durably under `pending-exercise-data` is readable before activation,
yet the activation cleanup filter classifies the `lumina-ai-data` cache as
stale (it starts with `lumina-` and is not in `validCacheNames`) and deletes
it, so after cleanup the still-unacknowledged mutation queue is gone. -/
theorem activation_deletes_pending_mutations :
    getStoredData (storeData [] "pending-exercise-data" (Json.arr [Json.null]))
        "pending-exercise-data" = some (Json.arr [Json.null]) ∧
    activateDeletes (cachesKeys (storeData [] "pending-exercise-data" (Json.arr [Json.null])))
        = [dataCacheName] ∧
    getStoredData (activateCacheCleanup
        (storeData [] "pending-exercise-data" (Json.arr [Json.null])))
        "pending-exercise-data" = none := by
  refine ⟨getStored_store _ _ _, ?_, ?_⟩
  · rfl
  · rfl

/-- Claim C1 (counterexample): with one pending mutation queued, a replay in
which the server answers every call with status 500 — not a 2xx — still
clears the topic's durable record, refuting "cleared only when every call
returns a 2xx response". -/
theorem replay_clears_despite_500 :
    ¬(200 ≤ 500 ∧ 500 ≤ 299) ∧
    getStoredData
        (syncExerciseData [] (fun _ _ => some 500)
          (storeData [] "pending-exercise-data" (Json.arr [Json.null]))).store
        "pending-exercise-data" = none := by
  constructor
  · omega
  · rfl

/-- Claim C1 (amended): for the exercise and eye-health mutation topics, an
outbound call counts as failed only when the network call throws; a replay
with a thrown call leaves the topic's entire durable record and the client
messages untouched, and the durable record is cleared exactly when every call
in insertion order resolves, regardless of HTTP status. -/
theorem replay_clear_iff_no_throw :
    (∀ (clients : List String) (net : ApiNet) (m : CacheMap) (items : List Json),
      getStoredData m "pending-exercise-data" = some (Json.arr items) → items ≠ [] →
        (postSequence net "/api/exercises/progress" items = false →
          syncExerciseData clients net m = ⟨m, []⟩) ∧
        (postSequence net "/api/exercises/progress" items = true →
          getStoredData (syncExerciseData clients net m).store "pending-exercise-data"
            = none)) ∧
    (∀ (net : ApiNet) (m : CacheMap) (items : List Json),
      getStoredData m "pending-health-data" = some (Json.arr items) → items ≠ [] →
        (postSequence net "/api/eye-health" items = false →
          syncEyeHealthData net m = ⟨m, []⟩) ∧
        (postSequence net "/api/eye-health" items = true →
          getStoredData (syncEyeHealthData net m).store "pending-health-data" = none)) := by
  constructor
  · intro clients net m items hq hne
    rw [syncExerciseData_eq clients net m items hq hne]
    constructor
    · intro hfail
      rw [if_neg (by rw [hfail]; intro hh; exact Bool.noConfusion hh)]
    · intro hok
      rw [if_pos (by rw [hok])]
      exact getStored_clear m "pending-exercise-data"
  · intro net m items hq hne
    rw [syncEyeHealthData_eq net m items hq hne]
    constructor
    · intro hfail
      rw [if_neg (by rw [hfail]; intro hh; exact Bool.noConfusion hh)]
    · intro hok
      rw [if_pos (by rw [hok])]
      exact getStored_clear m "pending-health-data"

/-- Witness for C1 (amended) at concrete stores and networks: a throwing
network leaves the exercise record untouched, a resolving network clears it. -/
theorem replay_clear_iff_no_throw_witness :
    syncExerciseData [] (fun _ _ => none)
        (storeData [] "pending-exercise-data" (Json.arr [Json.null]))
      = ⟨storeData [] "pending-exercise-data" (Json.arr [Json.null]), []⟩ ∧
    getStoredData (syncExerciseData [] (fun _ _ => some 200)
        (storeData [] "pending-exercise-data" (Json.arr [Json.null]))).store
        "pending-exercise-data" = none := by
  have h1 := replay_clear_iff_no_throw.1 [] (fun _ _ => none)
      (storeData [] "pending-exercise-data" (Json.arr [Json.null])) [Json.null]
      (getStored_store _ _ _) (by simp)
  have h2 := replay_clear_iff_no_throw.1 [] (fun _ _ => some 200)
      (storeData [] "pending-exercise-data" (Json.arr [Json.null])) [Json.null]
      (getStored_store _ _ _) (by simp)
  exact ⟨h1.1 rfl, h2.2 rfl⟩

/-- Claim C8 (counterexample): a replay of the eye-health topic in which every
pending mutation succeeds (the record is cleared) posts no message at all to
clients, refuting "every mutation topic broadcasts a topic-specific synced
notification on full success". -/
theorem eye_health_success_no_broadcast :
    postSequence (fun _ _ => some 200) "/api/eye-health" [Json.null] = true ∧
    (syncEyeHealthData (fun _ _ => some 200)
        (storeData [] "pending-health-data" (Json.arr [Json.null]))).messages = [] ∧
    getStoredData (syncEyeHealthData (fun _ _ => some 200)
        (storeData [] "pending-health-data" (Json.arr [Json.null]))).store
        "pending-health-data" = none :=
  ⟨rfl, rfl, rfl⟩

/-- Claim C8 (amended): only the exercise-data topic broadcasts on fully
successful replay of a nonempty queue — `EXERCISE_DATA_SYNCED` to every open
client — while the eye-health and settings replays never post any client
message. -/
theorem synced_broadcast_only_exercise :
    (∀ (clients : List String) (net : ApiNet) (m : CacheMap) (items : List Json),
      getStoredData m "pending-exercise-data" = some (Json.arr items) → items ≠ [] →
      postSequence net "/api/exercises/progress" items = true →
      (syncExerciseData clients net m).messages
        = clients.map (fun c => (c, exerciseSyncedMsg))) ∧
    (∀ (net : ApiNet) (m : CacheMap), (syncEyeHealthData net m).messages = []) ∧
    (∀ (net : ApiNet) (m : CacheMap), (syncUserSettings net m).messages = []) := by
  refine ⟨?_, ?_, ?_⟩
  · intro clients net m items hq hne hok
    rw [syncExerciseData_eq clients net m items hq hne, if_pos (by rw [hok])]
  · intro net m
    unfold syncEyeHealthData
    split
    · split_ifs
      · rfl
      · rfl
      · rfl
    · rfl
  · intro net m
    unfold syncUserSettings
    split
    · split_ifs
      · split
        · rfl
        · rfl
      · rfl
    · rfl

/-- Witness for C8 (amended) at a concrete client list, network and store. -/
theorem synced_broadcast_only_exercise_witness :
    (syncExerciseData ["client1"] (fun _ _ => some 200)
        (storeData [] "pending-exercise-data" (Json.arr [Json.null]))).messages
      = [("client1", exerciseSyncedMsg)] := by
  have h := synced_broadcast_only_exercise.1 ["client1"] (fun _ _ => some 200)
      (storeData [] "pending-exercise-data" (Json.arr [Json.null])) [Json.null]
      (getStored_store _ _ _) (by simp) rfl
  exact h.trans rfl

/-- Claim C6 (counterexample): in the activate handler, client claiming
begins before the cleanup step completes — the two are started together under
one `Promise.all` — whichever of the two completes first, refuting "the
cleanup step completes before client-claiming begins". -/
theorem cleanup_not_before_claim :
    ¬evBefore (activateTrace false) ActEvent.cleanupEnd ActEvent.claimStart ∧
    ¬evBefore (activateTrace true) ActEvent.cleanupEnd ActEvent.claimStart := by
  constructor <;> decide

/-- Claim C6 (amended): cleanup and claiming run concurrently — claiming
begins before cleanup completes — and the `SW_ACTIVATED` broadcast, carrying
the generation label to every open client, is sent only after both cleanup
and claiming have completed. -/
theorem activate_order_amended :
    (∀ b : Bool,
      evBefore (activateTrace b) ActEvent.cleanupStart ActEvent.cleanupEnd ∧
      evBefore (activateTrace b) ActEvent.claimStart ActEvent.cleanupEnd ∧
      evBefore (activateTrace b) ActEvent.cleanupEnd ActEvent.broadcastSent ∧
      evBefore (activateTrace b) ActEvent.claimEnd ActEvent.broadcastSent) ∧
    (∀ (clients : List String) (c : String), c ∈ clients →
      (c, swActivatedMsg) ∈ activateBroadcast clients ∧
      swActivatedMsg.version = some APP_VERSION) := by
  constructor
  · intro b
    cases b <;> exact ⟨by decide, by decide, by decide, by decide⟩
  · intro clients c hc
    exact ⟨List.mem_map_of_mem _ hc, rfl⟩

/-- Witness for C6 (amended) at a concrete client list and completion order. -/
theorem activate_order_amended_witness :
    ("c1", swActivatedMsg) ∈ activateBroadcast ["c1", "c2"] ∧
    swActivatedMsg.version = some APP_VERSION ∧
    evBefore (activateTrace false) ActEvent.claimStart ActEvent.cleanupEnd := by
  have h := activate_order_amended
  exact ⟨(h.2 ["c1", "c2"] "c1" (by simp)).1, (h.2 ["c1", "c2"] "c1" (by simp)).2,
    (h.1 false).2.1⟩

/-- Claim C7 (counterexample): a GET request whose scheme is `ftp:` — neither
`http:` nor `https:` — is still intercepted by the fetch listener (it produces
a response of its own), refuting "non-http(s) schemes are not intercepted". -/
theorem ftp_scheme_intercepted :
    (handleFetch "https://lumina.app" [] (fun _ => none)
        ⟨"GET", ⟨"ftp:", "example.com", "/file.txt"⟩, ""⟩).isSome = true ∧
    ("ftp:" : String) ≠ "http:" ∧ ("ftp:" : String) ≠ "https:" := by
  refine ⟨rfl, by decide, by decide⟩

/-- Claim C7 (amended): the fetch listener declines to intercept exactly the
requests that are non-GET or carry the `chrome-extension:` scheme; every
other request, whatever its scheme, is intercepted. -/
theorem intercept_iff :
    ∀ (loc : String) (m : CacheMap) (net : FetchNet) (r : Request),
      handleFetch loc m net r = none ↔
        (r.method ≠ "GET" ∨ r.url.protocol = "chrome-extension:") := by
  intro loc m net r
  unfold handleFetch
  by_cases h : r.method ≠ "GET" ∨ r.url.protocol = "chrome-extension:"
  · rw [if_pos h]
    simp [h]
  · rw [if_neg h]
    simp [h]

/-- Witness for C7 (amended): a POST request is not intercepted. -/
theorem intercept_iff_witness :
    handleFetch "https://lumina.app" [] (fun _ => none)
        ⟨"POST", ⟨"https:", "lumina.app", "/api/x"⟩, ""⟩ = none :=
  (intercept_iff "https://lumina.app" [] (fun _ => none)
      ⟨"POST", ⟨"https:", "lumina.app", "/api/x"⟩, ""⟩).mpr (Or.inl (by decide))

/-- Claim C2 (counterexample): the document request `/dashboard.html`
(destination `document`), with empty caches and a throwing network, is routed
to stale-while-revalidate and settles with no response at all — not the
synthesized offline page. -/
theorem document_request_no_offline_page :
    (handleFetch "https://lumina.app" [] (fun _ => none)
        ⟨"GET", ⟨"https:", "lumina.app", "/dashboard.html"⟩, "document"⟩).map
        (fun res => res.resp)
      = some none ∧
    (none : Option HttpResponse) ≠ some createOfflineExercisePage := by
  refine ⟨rfl, by simp⟩

/-- Claim C2 (amended): the offline page is synthesized exactly on the
cache-first path.  A same-origin document request whose path is classified as
a static asset (hence cache-first), with no cached entry and a throwing
network, settles with the synthesized offline page; a document request routed
to stale-while-revalidate instead (not API-prefixed, not a static-asset path)
settles with no response under the same conditions, propagating as a failed
retrieval. -/
theorem offline_page_only_cache_first :
    ∀ (m : CacheMap) (net : FetchNet) (r : Request),
      r.destination = "document" →
      (NETWORK_FIRST_URLS.any (fun p => strStartsWith r.url.pathname p)) = false →
      cachesMatch m r.url.href = none →
      net r = none →
      (isStaticAsset r.url.pathname = true →
        handleSameOriginRequest m net r = ⟨some createOfflineExercisePage, m, true⟩) ∧
      (isStaticAsset r.url.pathname = false →
        handleSameOriginRequest m net r = ⟨none, m, true⟩) := by
  intro m net r hdoc hapi hc hn
  constructor
  · intro hst
    unfold handleSameOriginRequest
    rw [if_neg (by simp [hapi]), if_pos hst]
    unfold handleCacheFirst
    rw [hc]
    dsimp only
    rw [hn]
    dsimp only
    rw [if_pos hdoc]
  · intro hst
    unfold handleSameOriginRequest
    rw [if_neg (by simp [hapi]), if_neg (by simp [hst]), if_pos (Or.inl hdoc)]
    unfold handleStaleWhileRevalidate
    dsimp only
    rw [hc, hn]

/-- Witness for C2 (amended): a static-asset-pathed document request gets the
offline page; a plain document request gets no response. -/
theorem offline_page_only_cache_first_witness :
    handleSameOriginRequest [] (fun _ => none)
        ⟨"GET", ⟨"https:", "lumina.app", "/icons/guide.html"⟩, "document"⟩
      = ⟨some createOfflineExercisePage, [], true⟩ ∧
    handleSameOriginRequest [] (fun _ => none)
        ⟨"GET", ⟨"https:", "lumina.app", "/dashboard.html"⟩, "document"⟩
      = ⟨none, [], true⟩ := by
  constructor
  · exact (offline_page_only_cache_first [] (fun _ => none)
      ⟨"GET", ⟨"https:", "lumina.app", "/icons/guide.html"⟩, "document"⟩
      rfl rfl rfl rfl).1 rfl
  · exact (offline_page_only_cache_first [] (fun _ => none)
      ⟨"GET", ⟨"https:", "lumina.app", "/dashboard.html"⟩, "document"⟩
      rfl rfl rfl rfl).2 rfl

/-- Claim C9: a static-asset-classified request with a stored entry under the
identical request identity is answered by the cache-first strategy with the
stored entry, with no network call and an unchanged cache map; consequently
every repetition of the request keeps returning that entry without any
network attempt. -/
theorem static_cache_hit_no_network :
    ∀ (loc : String) (m : CacheMap) (net : FetchNet) (r : Request) (c : HttpResponse),
      r.method = "GET" →
      r.url.protocol ≠ "chrome-extension:" →
      r.url.origin = loc →
      (NETWORK_FIRST_URLS.any (fun p => strStartsWith r.url.pathname p)) = false →
      isStaticAsset r.url.pathname = true →
      cachesMatch m r.url.href = some c →
      handleFetch loc m net r = some ⟨some c, m, false⟩ ∧
      ∀ n : Nat, fetchIterate loc net r n m = (List.replicate n (some c, false), m) := by
  intro loc m net r c hm hp ho hapi hst hc
  have hstep : handleFetch loc m net r = some ⟨some c, m, false⟩ := by
    unfold handleFetch
    rw [if_neg (by simp [hm, hp]), if_pos ho]
    unfold handleSameOriginRequest
    rw [if_neg (by simp [hapi]), if_pos hst]
    unfold handleCacheFirst
    rw [hc]
  refine ⟨hstep, ?_⟩
  intro n
  induction n with
  | zero => rfl
  | succ k ih =>
    conv_lhs => rw [fetchIterate.eq_def]
    dsimp only
    rw [hstep]
    dsimp only
    rw [ih]
    simp [List.replicate_succ]

/-- Witness for C9 at a concrete cached icon request, repeated twice. -/
theorem static_cache_hit_no_network_witness :
    handleFetch "https://lumina.app"
        [(STATIC_CACHE, [("https://lumina.app/icons/icon-192.png", ⟨200, "img"⟩)])]
        (fun _ => none)
        ⟨"GET", ⟨"https:", "lumina.app", "/icons/icon-192.png"⟩, "image"⟩
      = some ⟨some ⟨200, "img"⟩,
          [(STATIC_CACHE, [("https://lumina.app/icons/icon-192.png", ⟨200, "img"⟩)])],
          false⟩ ∧
    fetchIterate "https://lumina.app" (fun _ => none)
        ⟨"GET", ⟨"https:", "lumina.app", "/icons/icon-192.png"⟩, "image"⟩ 2
        [(STATIC_CACHE, [("https://lumina.app/icons/icon-192.png", ⟨200, "img"⟩)])]
      = ([(some ⟨200, "img"⟩, false), (some ⟨200, "img"⟩, false)],
         [(STATIC_CACHE, [("https://lumina.app/icons/icon-192.png", ⟨200, "img"⟩)])]) := by
  have h := static_cache_hit_no_network "https://lumina.app"
      [(STATIC_CACHE, [("https://lumina.app/icons/icon-192.png", ⟨200, "img"⟩)])]
      (fun _ => none)
      ⟨"GET", ⟨"https:", "lumina.app", "/icons/icon-192.png"⟩, "image"⟩
      ⟨200, "img"⟩ rfl (by decide) rfl rfl rfl rfl
  exact ⟨h.1, (h.2 2).trans rfl⟩

/-- Claim C4 (counterexample): an install in which one assets seed fetch
throws while everything else succeeds is not failed: the trailing catch
swallows the rejection, so the `waitUntil` promise fulfills; the static tier
keeps its nine committed entries while the failed assets tier has none, and
`skipWaiting` is not invoked. -/
theorem install_seed_failure_not_failed :
    (installRun (fun u => if u = "/icons/icon-192.png" then none else some ⟨200, ""⟩)
        []).rejected = false ∧
    (installRun (fun u => if u = "/icons/icon-192.png" then none else some ⟨200, ""⟩)
        []).skipWaitingCalled = false ∧
    (cachesFind (installRun (fun u => if u = "/icons/icon-192.png" then none
        else some ⟨200, ""⟩) []).store STATIC_CACHE).length = 9 ∧
    cachesFind (installRun (fun u => if u = "/icons/icon-192.png" then none
        else some ⟨200, ""⟩) []).store ASSETS_CACHE = [] :=
  ⟨rfl, rfl, rfl, rfl⟩

/-- Claim C4 (amended): `skipWaiting` is invoked exactly when every seed fetch
of every tier resolves ok; the install's `waitUntil` promise never rejects —
the catch swallows seed failures, so the platform treats the install step as
completed — and a tier whose own `addAll` rejected commits nothing (its
contents are unchanged), while sibling tiers that succeeded keep their
commits. -/
theorem install_failure_behavior :
    ∀ (net : SeedNet) (m : CacheMap),
      (installRun net m).rejected = false ∧
      ((installRun net m).skipWaitingCalled = true ↔
        ((addAllOutcome net CORE_FILES).isSome = true ∧
         (addAllOutcome net EXERCISE_ASSETS).isSome = true ∧
         addEachAllOk net EXTERNAL_RESOURCES = true)) ∧
      (addAllOutcome net CORE_FILES = none →
        cachesFind (installRun net m).store STATIC_CACHE = cachesFind m STATIC_CACHE) ∧
      (addAllOutcome net EXERCISE_ASSETS = none →
        cachesFind (installRun net m).store ASSETS_CACHE = cachesFind m ASSETS_CACHE) := by
  intro net m
  refine ⟨rfl, ?_, ?_, ?_⟩
  · rw [installRun_skipWaiting]
    simp [Bool.and_eq_true]
  · intro hcore
    unfold installRun
    rw [hcore]
    dsimp only
    cases hassets : addAllOutcome net EXERCISE_ASSETS with
    | none =>
      dsimp only
      rw [cachesFind_commit_other _ _ _ _ (by decide)]
    | some es =>
      dsimp only
      rw [cachesFind_commit_other _ _ _ _ (by decide),
        cachesFind_commit_other _ _ _ _ (by decide)]
  · intro hassets
    unfold installRun
    rw [hassets]
    dsimp only
    cases hcore : addAllOutcome net CORE_FILES with
    | none =>
      dsimp only
      rw [cachesFind_commit_other _ _ _ _ (by decide)]
    | some es =>
      dsimp only
      rw [cachesFind_commit_other _ _ _ _ (by decide),
        cachesFind_commit_other _ _ _ _ (by decide)]

/-- Witness for C4 (amended) on the all-failing seed network. -/
theorem install_failure_behavior_witness :
    (installRun (fun _ => none) []).rejected = false ∧
    (installRun (fun _ => none) []).skipWaitingCalled = false ∧
    cachesFind (installRun (fun _ => none) []).store STATIC_CACHE = [] ∧
    cachesFind (installRun (fun _ => none) []).store ASSETS_CACHE = [] := by
  have h := install_failure_behavior (fun _ => none) []
  refine ⟨h.1, ?_, (h.2.2.1 rfl).trans rfl, (h.2.2.2 rfl).trans rfl⟩
  cases hsw : (installRun (fun _ => none) []).skipWaitingCalled
  · rfl
  · exact absurd (h.2.1.mp hsw).1 (by decide)

/-- Claim C5: in every strategy execution — cache-first, network-first,
stale-while-revalidate, font and external — the cache map either is left
unchanged or gains exactly the network response at the request's identity,
and only when that response has status exactly 200; redirects, errors and
opaque responses (status 0) are never persisted. -/
theorem strategy_caches_only_status_200 :
    ∀ (m : CacheMap) (net : FetchNet) (r : Request),
      ((handleCacheFirst m net r).store = m ∨
        ∃ nr, net r = some nr ∧ nr.status = 200 ∧
          (handleCacheFirst m net r).store = cachesPut m RUNTIME_CACHE r.url.href nr) ∧
      ((handleNetworkFirst m net r).store = m ∨
        ∃ nr, net r = some nr ∧ nr.status = 200 ∧
          (handleNetworkFirst m net r).store = cachesPut m RUNTIME_CACHE r.url.href nr) ∧
      ((handleStaleWhileRevalidate m net r).store = m ∨
        ∃ nr, net r = some nr ∧ nr.status = 200 ∧
          (handleStaleWhileRevalidate m net r).store
            = cachesPut m RUNTIME_CACHE r.url.href nr) ∧
      ((handleFontRequest m net r).store = m ∨
        ∃ nr, net r = some nr ∧ nr.status = 200 ∧
          (handleFontRequest m net r).store = cachesPut m DYNAMIC_CACHE r.url.href nr) ∧
      ((handleExternalRequest m net r).store = m ∨
        ∃ nr, net r = some nr ∧ nr.status = 200 ∧
          (handleExternalRequest m net r).store = cachesPut m DYNAMIC_CACHE r.url.href nr) := by
  intro m net r
  refine ⟨?_, ?_, ?_, ?_, ?_⟩
  · unfold handleCacheFirst
    cases hc : cachesMatch m r.url.href with
    | some c => left; rfl
    | none =>
      dsimp only
      cases hn : net r with
      | some nr =>
        dsimp only
        by_cases hst : nr.status = 200
        · right
          exact ⟨nr, rfl, hst, by rw [if_pos hst]⟩
        · left
          rw [if_neg hst]
      | none =>
        dsimp only
        by_cases hd : r.destination = "document"
        · left; rw [if_pos hd]
        · left; rw [if_neg hd]
  · unfold handleNetworkFirst
    cases hn : net r with
    | some nr =>
      dsimp only
      by_cases hst : nr.status = 200
      · right
        exact ⟨nr, rfl, hst, by rw [if_pos hst]⟩
      · left
        rw [if_neg hst]
    | none =>
      dsimp only
      cases hc : cachesMatch m r.url.href with
      | some c => left; rfl
      | none => left; rfl
  · unfold handleStaleWhileRevalidate
    dsimp only
    cases hn : net r with
    | some nr =>
      dsimp only
      by_cases hst : nr.status = 200
      · right
        exact ⟨nr, rfl, hst, by rw [if_pos hst]⟩
      · left
        rw [if_neg hst]
    | none => left; rfl
  · unfold handleFontRequest
    cases hc : cachesMatch m r.url.href with
    | some c => left; rfl
    | none =>
      dsimp only
      cases hn : net r with
      | some nr =>
        dsimp only
        by_cases hst : nr.status = 200
        · right
          exact ⟨nr, rfl, hst, by rw [if_pos hst]⟩
        · left
          rw [if_neg hst]
      | none => left; rfl
  · unfold handleExternalRequest
    cases hn : net r with
    | some nr =>
      dsimp only
      by_cases hok : nr.status = 200 ∧ shouldCacheExternal r.url.href = true
      · right
        exact ⟨nr, rfl, hok.1, by rw [if_pos hok]⟩
      · left
        rw [if_neg hok]
    | none =>
      dsimp only
      cases hc : cachesMatch m r.url.href with
      | some c => left; rfl
      | none => left; rfl

end Lumina
